import Mathlib

/-!
Verification development for the bundle-exchange and branch-reconciliation
subsystem of the chucky CLI.

The TypeScript sources embedded here:
  * `src/lib/git.ts` (shipped concatenated into `src/lib/token.ts`):
    `getBundleStats`, `applyBranch`, `discardBranch`, `branchExists`,
    and the `git`/`gitSafe` subprocess wrappers;
  * `src/commands/apply.ts` (`applyCommand`), `src/commands/fetch.ts`
    (`fetchCommand`, shipped inside `src/commands/diff.ts`),
    `src/commands/discard.ts` (`discardCommand`),
    `src/commands/pull.ts` (`pullCommand`);
  * `src/lib/output.ts` (`ExitCode`, `exitWithError`);
  * `src/lib/api.ts` (`resolveSessionId`, `isJobId`).

Modelling conventions:
  * the external `git` binary is modelled by a `RepoState` recording the
    local branches, whether the working tree is in a conflicted mid-merge
    state, and the messages of merge commits created so far.  Each branch
    carries the (already-trimmed) stdout of the three read-only git calls
    the code issues against it (`rev-list HEAD..b`, `diff --numstat
    HEAD..b`, `diff --name-status HEAD..b`) plus an abstract relation of
    its tip to HEAD (fast-forwardable / diverged / conflicting), which is
    what drives the observable outcomes of `merge --ff-only`,
    `merge --no-edit -m`, and `branch -d` / `branch -D`;
  * a git subprocess call returns the new repository state together with
    `GRes.ok stdout` or `GRes.err message` (the `git` wrapper throws the
    stderr text; `gitSafe` converts the error to `null`, i.e. the state is
    kept and the error dropped);
  * the command layer additionally returns the ordered list of external
    actions performed (merge attempts, branch deletions, API call, bundle
    download, bundle verification, bundle fetch), mirroring the order of
    the calls in the TypeScript source;
  * `process.exit` via `exitWithError` is modelled by the `exited code tag`
    outcome: it terminates the command (and, for `pull`, the whole
    composition);
  * JavaScript string operations (`split` on a one-character separator,
    `trim`, `includes`, `startsWith`, `parseInt(s, 10) || 0`) are modelled
    on `List Char` by the `splitChar`, `jsTrim`, `jsIncludes`,
    `leadsWith` and `jsParseIntL` functions below; the inputs involved are
    ASCII, for which these models coincide with the JS semantics.
-/

/-- digit test used by the model of `parseInt(s, 10)`: ASCII `0`..`9`. -/
def isDigitChar (c : Char) : Bool := 48 ≤ c.toNat && c.toNat ≤ 57

/-- whitespace test used by the model of `String.prototype.trim` (ASCII
space, tab, line feed, carriage return; the inputs here are ASCII). -/
def isWsChar (c : Char) : Bool :=
  c.toNat = 32 || c.toNat = 9 || c.toNat = 10 || c.toNat = 13

/-- Model of `parseInt(s, 10)` on a character list: consume leading ASCII
digits, returning 0 when there is none (JS returns `NaN` there and every
call site appends `|| 0`).  The fields parsed in this code are digit runs
or `"-"`, so signs and radix prefixes never occur. -/
def jsParseIntCore : List Char → Nat → Nat
  | [], acc => acc
  | c :: cs, acc =>
    if isDigitChar c then jsParseIntCore cs (acc * 10 + (c.toNat - 48)) else acc

/-- Model of `parseInt(s, 10) || 0` on a character list. -/
def jsParseIntL (l : List Char) : Nat := jsParseIntCore l 0

/-- Model of `s.split(sep)` for a one-character separator (the code only
splits on `"\n"` and `"\t"`).  Always returns a non-empty list; splitting
the empty string yields `[[]]`, as in JS. -/
def splitChar (c : Char) : List Char → List (List Char)
  | [] => [[]]
  | x :: xs =>
    match splitChar c xs with
    | [] => [[]]
    | h :: t => if x = c then [] :: h :: t else (x :: h) :: t

/-- Model of `parts.join(sep)` for a one-character separator. -/
def joinSepChar (c : Char) : List (List Char) → List Char
  | [] => []
  | [x] => x
  | x :: xs => x ++ c :: joinSepChar c xs

/-- Model of `s.trim()`: drop whitespace from both ends. -/
def jsTrim (l : List Char) : List Char :=
  (((l.dropWhile isWsChar).reverse.dropWhile isWsChar)).reverse

/-- Bool test that `pat` is a leading segment of `l`; models
`s.startsWith(pat)` at the character level. -/
def leadsWith : List Char → List Char → Bool
  | [], _ => true
  | _ :: _, [] => false
  | p :: ps, x :: xs => p = x && leadsWith ps xs

/-- Model of `s.includes(sub)` (substring occurrence test). -/
def containsSub (sub : List Char) : List Char → Bool
  | [] => leadsWith sub []
  | x :: xs => leadsWith sub (x :: xs) || containsSub sub xs

/-- Model of `s.includes(sub)` on strings. -/
def jsIncludes (s sub : String) : Bool := containsSub sub.data s.data

/-- Test that a character list begins with the given character; models
`s.startsWith(t)` for a one-character `t` (the status checks `"A"`, `"M"`,
`"D"`). -/
def hasHead (c : Char) : List Char → Bool
  | [] => false
  | x :: _ => x = c

/-- Decimal rendering of a `Nat` with explicit fuel, kept structural so
that concrete evaluation reduces in the kernel. -/
def natDigitsFuel : Nat → Nat → List Char
  | 0, _ => []
  | fuel + 1, n =>
    if n < 10 then [Char.ofNat (48 + n)]
    else natDigitsFuel fuel (n / 10) ++ [Char.ofNat (48 + n % 10)]

/-- Decimal digit characters of a `Nat` (what `git diff --numstat` prints
for a numeric insertion/deletion count). -/
def natDigits (n : Nat) : List Char := natDigitsFuel (n + 1) n

/-- The non-empty-after-trim lines of a string: models the ubiquitous
`s.split("\n").filter((l) => l.trim())` idiom of `git.ts`. -/
def nonEmptyLinesOf (s : String) : List (List Char) :=
  (splitChar '\n' s.data).filter (fun l => !(jsTrim l).isEmpty)

/-- One step of the `--numstat` accumulation loop of `getBundleStats`
(`git.ts` lines 231-235): split the line on tabs, take the first two
fields, and add each field to the corresponding counter unless it is the
binary marker `"-"`. -/
def numstatStep (acc : Nat × Nat) (line : List Char) : Nat × Nat :=
  let fields := splitChar '\t' line
  let added := fields.getD 0 []
  let removed := fields.getD 1 []
  ((if added = ['-'] then acc.1 else acc.1 + jsParseIntL added),
   (if removed = ['-'] then acc.2 else acc.2 + jsParseIntL removed))

/-- Insertion/deletion totals over the kept `--numstat` lines. -/
def numstatCounts (lines : List (List Char)) : Nat × Nat :=
  lines.foldl numstatStep (0, 0)

/-- One step of the `--name-status` classification loop of
`getBundleStats` (`git.ts` lines 247-258): the first tab field is the
status, the rest re-joined with tabs is the file; push the file onto the
added/modified/deleted list when the status starts with `A`/`M`/`D`. -/
def nameStatusStep (acc : List String × List String × List String)
    (line : List Char) : List String × List String × List String :=
  let fields := splitChar '\t' line
  let status := fields.headD []
  let file : String := ⟨joinSepChar '\t' fields.tail⟩
  if hasHead 'A' status then (acc.1 ++ [file], acc.2.1, acc.2.2)
  else if hasHead 'M' status then (acc.1, acc.2.1 ++ [file], acc.2.2)
  else if hasHead 'D' status then (acc.1, acc.2.1, acc.2.2 ++ [file])
  else acc

/-- Added/modified/deleted file lists over the kept `--name-status`
lines. -/
def nameStatusLists (lines : List (List Char)) :
    List String × List String × List String :=
  lines.foldl nameStatusStep ([], [], [])

/-- `BundleStats` interface of `git.ts`. -/
structure BundleStats where
  commits : Nat
  filesAdded : List String
  filesModified : List String
  filesDeleted : List String
  insertions : Nat
  deletions : Nat
deriving DecidableEq, Repr

/-- Relation of a branch tip to the current HEAD, the abstract input that
determines the observable behaviour of the git merge commands. -/
inductive BranchRel where
  | fastForwardable
  | diverged
  | conflicting
deriving DecidableEq, Repr

/-- Per-branch state: the merge relation to HEAD and the trimmed stdout of
the three read-only git queries `getBundleStats` issues for the branch
(`gitSafe` returns `null` on failure and every call site appends `|| ""`,
so a missing output is the empty string). -/
structure BranchInfo where
  rel : BranchRel
  revListOut : String
  numstatOut : String
  nameStatusOut : String
deriving DecidableEq, Repr

/-- State of the local repository as observed through the git adapter. -/
structure RepoState where
  branches : List (String × BranchInfo)
  conflicted : Bool
  mergeMsgs : List String
deriving DecidableEq, Repr

/-- Association-list lookup of a branch. -/
def findBranch : List (String × BranchInfo) → String → Option BranchInfo
  | [], _ => none
  | (n, i) :: rest, b => if n = b then some i else findBranch rest b

/-- Removal of a branch (effect of a successful `git branch -d`/`-D`). -/
def eraseBranch : List (String × BranchInfo) → String → List (String × BranchInfo)
  | [], _ => []
  | (n, i) :: rest, b =>
    if n = b then eraseBranch rest b else (n, i) :: eraseBranch rest b

/-- After HEAD absorbs the branch (fast-forward or merge commit), the
branch tip is an ancestor of HEAD: its diff and rev-list against HEAD are
empty and a further merge of it is a fast-forward no-op.  (The cached
outputs of other branches are not tracked across a HEAD move; no claim
depends on them.) -/
def absorbBranches : List (String × BranchInfo) → String → List (String × BranchInfo)
  | [], _ => []
  | (n, i) :: rest, b =>
    (if n = b then
      (n, { i with rel := BranchRel.fastForwardable, revListOut := "",
                   numstatOut := "", nameStatusOut := "" })
    else (n, i)) :: absorbBranches rest b

/-- State update for a successful merge of `branchName` into HEAD. -/
def absorbBranch (st : RepoState) (branchName : String) : RepoState :=
  { st with branches := absorbBranches st.branches branchName }

/-- State update for `git fetch <bundle> HEAD:<branchName>` (`fetchBundle`
in `git.ts`): one new local branch, no working-tree modification. -/
def addBranch (st : RepoState) (branchName : String) (info : BranchInfo) : RepoState :=
  { st with branches := (branchName, info) :: st.branches }

/-- `branchExists` of `git.ts` (lines 360-364): `gitSafe(["rev-parse",
"--verify", branchName])` succeeds exactly when the branch is present. -/
def branchExists (st : RepoState) (branchName : String) : Bool :=
  (findBranch st.branches branchName).isSome

/-- Result of a `git` subprocess call: the wrapper in `git.ts` throws the
stderr text on a non-zero exit, so a call either yields stdout or an error
message. -/
inductive GRes (α : Type) where
  | ok (val : α)
  | err (msg : String)
deriving DecidableEq, Repr

/-- External actions performed by the command layer, in call order. -/
inductive GitAct where
  | mergeFFOnly (branch : String)
  | mergeNoEdit (branch : String)
  | branchDeleteSoft (branch : String)
  | branchDeleteForce (branch : String)
  | apiGetBundle
  | download
  | verifyBundle
  | fetchBundle (branch : String)
deriving DecidableEq, Repr

/-- `getBundleStats` of `git.ts` (lines 215-268): commit count from
`rev-list HEAD..b`, insertion/deletion totals from `diff --numstat`,
file classification from `diff --name-status`.  A missing branch makes all
three `gitSafe` calls fail, giving empty outputs and zero stats. -/
def getBundleStats (st : RepoState) (branchName : String) : BundleStats :=
  let info := (findBranch st.branches branchName).getD
    ⟨BranchRel.fastForwardable, "", "", ""⟩
  let revList := info.revListOut
  let commits := if revList = "" then 0 else (nonEmptyLinesOf revList).length
  let counts := numstatCounts (nonEmptyLinesOf info.numstatOut)
  let files := nameStatusLists (nonEmptyLinesOf info.nameStatusOut)
  ⟨commits, files.1, files.2.1, files.2.2, counts.1, counts.2⟩

/-- `git merge --ff-only <branchName>` (`git.ts` line 335).  Succeeds and
advances HEAD when the branch is fast-forwardable; on a diverged or
conflicting branch git aborts cleanly (no state change) with the
fast-forward refusal on stderr. -/
def gitMergeFF (st : RepoState) (branchName : String) : RepoState × GRes String :=
  match findBranch st.branches branchName with
  | none => (st, GRes.err ("merge: " ++ branchName ++ " - not something we can merge"))
  | some info =>
    match info.rel with
    | BranchRel.fastForwardable => (absorbBranch st branchName, GRes.ok "")
    | BranchRel.diverged =>
      (st, GRes.err "fatal: Not possible to fast-forward, aborting.")
    | BranchRel.conflicting =>
      (st, GRes.err "fatal: Not possible to fast-forward, aborting.")

/-- `git merge --no-edit -m <msg> <branchName>` (`git.ts` line 333).
Fast-forwards when possible (git ignores `-m` then), creates a merge
commit with the given message on a diverged branch, and on irreconcilable
overlapping edits fails with the conflict report while leaving the
repository in the mid-merge conflicted state (git does not roll the index
back, and the code never calls `merge --abort`). -/
def gitMergeForce (st : RepoState) (msg : String) (branchName : String) :
    RepoState × GRes String :=
  match findBranch st.branches branchName with
  | none => (st, GRes.err ("merge: " ++ branchName ++ " - not something we can merge"))
  | some info =>
    match info.rel with
    | BranchRel.fastForwardable => (absorbBranch st branchName, GRes.ok "")
    | BranchRel.diverged =>
      ({ absorbBranch st branchName with mergeMsgs := msg :: st.mergeMsgs },
       GRes.ok "")
    | BranchRel.conflicting =>
      ({ st with conflicted := true },
       GRes.err "CONFLICT (content): Merge conflict")

/-- `git(["branch", "-d", branchName])` (`git.ts` line 339): a
non-forced delete through the throwing wrapper.  It fails when the branch
does not exist and when the branch is not fully merged into HEAD (the
rev-list of `HEAD..b` is non-empty). -/
def gitBranchDeleteSoft (st : RepoState) (branchName : String) :
    RepoState × GRes String :=
  match findBranch st.branches branchName with
  | none => (st, GRes.err ("error: branch " ++ branchName ++ " not found."))
  | some info =>
    if info.revListOut = "" then
      ({ st with branches := eraseBranch st.branches branchName }, GRes.ok "")
    else (st, GRes.err ("error: the branch " ++ branchName ++ " is not fully merged."))

/-- `git(["branch", "-D", branchName])`: a forced delete; it fails only
when the branch does not exist. -/
def gitBranchDeleteForce (st : RepoState) (branchName : String) :
    RepoState × GRes String :=
  match findBranch st.branches branchName with
  | none => (st, GRes.err ("error: branch " ++ branchName ++ " not found."))
  | some _ =>
    ({ st with branches := eraseBranch st.branches branchName }, GRes.ok "")

/-- `discardBranch` of `git.ts` (lines 350-355): `gitSafe(["branch",
"-D", branchName])` — the forced delete with the error swallowed, so the
call never throws and is a no-op when the branch is absent. -/
def discardBranch (st : RepoState) (branchName : String) : RepoState :=
  (gitBranchDeleteForce st branchName).1

/-- Return value of `applyBranch`. -/
structure ApplyRes where
  commits : Nat
  files : Nat
deriving DecidableEq, Repr

/-- `applyBranch` of `git.ts` (lines 322-345): compute the stats of the
branch against HEAD, merge (`--ff-only` by default, `--no-edit -m "Merge
<branchName>"` under `force`), then clean the branch up with a non-forced
`branch -d`; the returned counts come from the stats taken before the
merge. -/
def applyBranch (st : RepoState) (branchName : String) (force : Bool) :
    RepoState × List GitAct × GRes ApplyRes :=
  let stats := getBundleStats st branchName
  let mergeStep :=
    if force then gitMergeForce st ("Merge " ++ branchName) branchName
    else gitMergeFF st branchName
  let mergeAct :=
    if force then GitAct.mergeNoEdit branchName else GitAct.mergeFFOnly branchName
  match mergeStep with
  | (st1, GRes.err m) => (st1, [mergeAct], GRes.err m)
  | (st1, GRes.ok _) =>
    match gitBranchDeleteSoft st1 branchName with
    | (st2, GRes.err m) =>
      (st2, [mergeAct, GitAct.branchDeleteSoft branchName], GRes.err m)
    | (st2, GRes.ok _) =>
      (st2, [mergeAct, GitAct.branchDeleteSoft branchName],
       GRes.ok ⟨stats.commits,
         stats.filesAdded.length + stats.filesModified.length +
           stats.filesDeleted.length⟩)

namespace ExitCode

/-- `ExitCode.SUCCESS` of `output.ts`. -/
def SUCCESS : Nat := 0

/-- `ExitCode.CONFLICT` of `output.ts`. -/
def CONFLICT : Nat := 1

/-- `ExitCode.NOT_FOUND` of `output.ts`. -/
def NOT_FOUND : Nat := 2

/-- `ExitCode.NOT_GIT_REPO` of `output.ts`. -/
def NOT_GIT_REPO : Nat := 3

/-- `ExitCode.NETWORK_ERROR` of `output.ts`. -/
def NETWORK_ERROR : Nat := 4

/-- `ExitCode.DIRTY_WORKSPACE` of `output.ts`. -/
def DIRTY_WORKSPACE : Nat := 5

/-- `ExitCode.TIMEOUT` of `output.ts`. -/
def TIMEOUT : Nat := 6

/-- `ExitCode.NO_CHANGES` of `output.ts`. -/
def NO_CHANGES : Nat := 7

end ExitCode

/-- The closed set of exit codes defined by `output.ts`. -/
def allExitCodes : List Nat :=
  [ExitCode.SUCCESS, ExitCode.CONFLICT, ExitCode.NOT_FOUND,
   ExitCode.NOT_GIT_REPO, ExitCode.NETWORK_ERROR, ExitCode.DIRTY_WORKSPACE,
   ExitCode.TIMEOUT, ExitCode.NO_CHANGES]

/-- Outcome of `applyCommand`: the success payload printed on apply, or a
terminating `exitWithError(code, {error: tag, ...})`. -/
inductive ApplyOut where
  | applied (commitsMerged filesChanged insertions deletions : Nat)
      (mergeCommit : Bool)
  | exited (code : Nat) (tag : String)
deriving DecidableEq, Repr

/-- Error classification of `applyCommand` (`apply.ts` lines 107-141):
an error whose message mentions a conflict exits with `merge_conflict`;
any other thrown error reaches the outer catch and exits with
`apply_failed`. -/
def applyErrMap (m : String) : ApplyOut :=
  if jsIncludes m "conflict" || jsIncludes m "CONFLICT" then
    ApplyOut.exited ExitCode.CONFLICT "merge_conflict"
  else ApplyOut.exited ExitCode.NETWORK_ERROR "apply_failed"

/-- `applyCommand` of `apply.ts` (lines 20-143) at the reconciliation
level: require the quarantine branch, take the stats before the merge,
attempt `applyBranch` (fast-forward first unless `force`), fall back to a
forced merge when the error signals a non-fast-forward/diverging state,
and classify any remaining error. -/
def applyCommand (st : RepoState) (branchName : String) (force : Bool) :
    RepoState × List GitAct × ApplyOut :=
  if branchExists st branchName then
    let stats := getBundleStats st branchName
    if force then
      match applyBranch st branchName true with
      | (s, a, GRes.ok r) =>
        (s, a, ApplyOut.applied r.commits r.files stats.insertions
          stats.deletions true)
      | (s, a, GRes.err m) => (s, a, applyErrMap m)
    else
      match applyBranch st branchName false with
      | (s, a, GRes.ok r) =>
        (s, a, ApplyOut.applied r.commits r.files stats.insertions
          stats.deletions false)
      | (s, a, GRes.err m) =>
        if jsIncludes m "fast-forward" || jsIncludes m "diverging" then
          match applyBranch s branchName true with
          | (s2, a2, GRes.ok r) =>
            (s2, a ++ a2, ApplyOut.applied r.commits r.files stats.insertions
              stats.deletions true)
          | (s2, a2, GRes.err m2) => (s2, a ++ a2, applyErrMap m2)
        else (s, a, applyErrMap m)
  else (st, [], ApplyOut.exited ExitCode.NOT_FOUND "branch_not_found")

/-- Bundle location reported by the remote API for a changeset. -/
structure BundleInfo where
  downloadUrl : String
  hasChanges : Bool
deriving DecidableEq, Repr

/-- External collaborators of `fetchCommand`: the bundle-location API
response, whether the bundle download succeeds, whether `git bundle
verify` accepts the downloaded file, and the branch content a successful
`git fetch` from the bundle establishes. -/
structure FetchEnv where
  bundleInfo : GRes BundleInfo
  downloadOk : Bool
  bundleValid : Bool
  fetchedInfo : BranchInfo
deriving DecidableEq, Repr

/-- Outcome of `fetchCommand`. -/
inductive FetchOut where
  | fetched (branch : String) (stats : BundleStats)
  | exited (code : Nat) (tag : String)
deriving DecidableEq, Repr

/-- `fetchCommand` of `fetch.ts` (lines 161-343): reject when the
quarantine branch already exists, short-circuit a no-changes changeset,
then download, verify, and fetch the bundle into the branch. -/
def fetchCommand (st : RepoState) (env : FetchEnv) (branchName : String)
    (isSession : Bool) : RepoState × List GitAct × FetchOut :=
  if branchExists st branchName then
    (st, [], FetchOut.exited ExitCode.CONFLICT "branch_exists")
  else
    match env.bundleInfo with
    | GRes.err _ =>
      (st, [GitAct.apiGetBundle],
       FetchOut.exited ExitCode.NOT_FOUND
         (if isSession then "session_not_found" else "job_not_found"))
    | GRes.ok info =>
      if info.hasChanges = false then
        (st, [GitAct.apiGetBundle],
         FetchOut.exited ExitCode.NO_CHANGES "no_changes")
      else if env.downloadOk = false then
        (st, [GitAct.apiGetBundle, GitAct.download],
         FetchOut.exited ExitCode.NETWORK_ERROR "download_failed")
      else if env.bundleValid = false then
        (st, [GitAct.apiGetBundle, GitAct.download, GitAct.verifyBundle],
         FetchOut.exited ExitCode.CONFLICT "invalid_bundle")
      else
        let st1 := addBranch st branchName env.fetchedInfo
        (st1,
         [GitAct.apiGetBundle, GitAct.download, GitAct.verifyBundle,
          GitAct.fetchBundle branchName],
         FetchOut.fetched branchName (getBundleStats st1 branchName))

/-- Outcome of `pullCommand`. -/
inductive PullOut where
  | applied (commitsMerged filesChanged insertions deletions : Nat)
      (mergeCommit : Bool)
  | exited (code : Nat) (tag : String)
deriving DecidableEq, Repr

/-- `pullCommand` of `pull.ts` (lines 10-31): fetch then apply.
`exitWithError` inside `fetchCommand` terminates the process, so a fetch
error ends the composition and `applyCommand` is never invoked. -/
def pullCommand (st : RepoState) (env : FetchEnv) (branchName : String)
    (isSession : Bool) (force : Bool) : RepoState × List GitAct × PullOut :=
  match fetchCommand st env branchName isSession with
  | (s, a, FetchOut.exited c t) => (s, a, PullOut.exited c t)
  | (s, a, FetchOut.fetched _ _) =>
    match applyCommand s branchName force with
    | (s2, a2, ApplyOut.applied c f i d um) =>
      (s2, a ++ a2, PullOut.applied c f i d um)
    | (s2, a2, ApplyOut.exited c t) => (s2, a ++ a2, PullOut.exited c t)

/-- Outcome of `discardCommand` (the command has no error path: the
branch deletion is a swallowing `gitSafe` call). -/
inductive DiscardOut where
  | discarded
deriving DecidableEq, Repr

/-- `discardCommand` of `discard.ts` (lines 13-50): delete the quarantine
branch through `discardBranch` and report success. -/
def discardCommand (st : RepoState) (branchName : String) :
    RepoState × List GitAct × DiscardOut :=
  (discardBranch st branchName, [GitAct.branchDeleteForce branchName],
   DiscardOut.discarded)

/-- `isJobId` of `api.ts` (lines 360-362): job IDs start with `run_`. -/
def isJobId (id : String) : Bool := leadsWith "run_".data id.data

/-- Quarantine branch naming used by the commands:
`chucky/job-<id>` or `chucky/session-<id>`. -/
def branchNameFor (id : String) : String :=
  if isJobId id then "chucky/job-" ++ id else "chucky/session-" ++ id

/-- One session record as returned by the sessions-list API. -/
structure SessionRec where
  id : String
deriving DecidableEq, Repr

/-- Remote API actions performed by `resolveSessionId`. -/
inductive ApiAct where
  | listSessions (limit : Nat)
deriving DecidableEq, Repr

/-- `resolveSessionId` of `api.ts` (lines 334-353).  An input of length at
least 36 is returned as-is with no API call.  Otherwise the code requests
`listSessions({ limit: 100 })` — the remote collaborator returns at most
`limit` of its most recent sessions, modelled as `take 100` of the
server-side list — and filters them by `s.id.startsWith(partialId)`:
zero matches is a not-found error, several an ambiguity error, one the
resolved ID. -/
def resolveSessionId (serverSessions : List SessionRec) (pid : String) :
    List ApiAct × GRes String :=
  if 36 ≤ pid.length then ([], GRes.ok pid)
  else
    let sessions := serverSessions.take 100
    let hits := sessions.filter (fun s => leadsWith pid.data s.id.data)
    ([ApiAct.listSessions 100],
     if hits.length = 0 then
       GRes.err ("No session found matching " ++ pid)
     else if 1 < hits.length then
       GRes.err ("Ambiguous session ID " ++ pid ++ " - matches " ++
         toString hits.length ++ " sessions. Use more characters.")
     else GRes.ok (((hits.headD ⟨""⟩)).id))

/-- One changed path of a diff between HEAD and a quarantine branch, as
git reports it: the `--numstat` insertion/deletion fields (`none` renders
as the binary marker `-`), the `--name-status` status field (`A`, `M`,
`D`, but also `R<score>`, `C<score>`, `T` for renames, copies and
type changes), and the path. -/
structure DiffEntry where
  ins : Option Nat
  del : Option Nat
  status : List Char
  path : List Char
deriving DecidableEq, Repr

/-- Rendering of a `--numstat` field: digits, or `-` for binary. -/
def numField : Option Nat → List Char
  | none => ['-']
  | some n => natDigits n

/-- One line of `git diff --numstat HEAD..b` output. -/
def numstatLineOf (e : DiffEntry) : List Char :=
  numField e.ins ++ '\t' :: (numField e.del ++ '\t' :: e.path)

/-- One line of `git diff --name-status HEAD..b` output. -/
def nameStatusLineOf (e : DiffEntry) : List Char :=
  e.status ++ '\t' :: e.path

/-- The full `--numstat` output for a list of changed paths. -/
def renderNumstat (entries : List DiffEntry) : String :=
  ⟨joinSepChar '\n' (entries.map numstatLineOf)⟩

/-- The full `--name-status` output for a list of changed paths. -/
def renderNameStatus (entries : List DiffEntry) : String :=
  ⟨joinSepChar '\n' (entries.map nameStatusLineOf)⟩

/-- All characters of the list are ASCII digits. -/
def allDigits (l : List Char) : Bool := l.all isDigitChar

/-- Combined length of the three lists of a name-status accumulator. -/
def nsTotal (acc : List String × List String × List String) : Nat :=
  acc.1.length + acc.2.1.length + acc.2.2.length

/-- Sum of the numeric insertion contributions of the changed paths
(binary files contribute 0). -/
def sumIns (entries : List DiffEntry) : Nat :=
  (entries.map (fun e => e.ins.getD 0)).sum

/-- Sum of the numeric deletion contributions of the changed paths
(binary files contribute 0). -/
def sumDel (entries : List DiffEntry) : Nat :=
  (entries.map (fun e => e.del.getD 0)).sum

/-- Well-formedness of a diff entry as git prints it: the path holds no
newline (git quotes such paths) and the status field is a non-empty run of
status characters (no tab, no newline). -/
def entryWf (e : DiffEntry) : Bool :=
  decide ('\n' ∉ e.path) && decide ('\n' ∉ e.status) &&
    decide ('\t' ∉ e.status) && !e.status.isEmpty

/-- Well-formedness of a whole diff. -/
def entriesWf (entries : List DiffEntry) : Bool := entries.all entryWf

/-- Every status is of the added/modified/deleted kind the classification
loop recognises. -/
def entriesAMD (entries : List DiffEntry) : Bool :=
  entries.all (fun e =>
    hasHead 'A' e.status || hasHead 'M' e.status || hasHead 'D' e.status)

/-- Combined length of the three classification lists of a stats value. -/
def classifiedCount (s : BundleStats) : Nat :=
  s.filesAdded.length + s.filesModified.length + s.filesDeleted.length

/-- Fixture: a diverged quarantine branch with one commit touching one
file. -/
def infoDiverged : BranchInfo :=
  ⟨BranchRel.diverged, "c1", "1\t2\tfoo.txt", "M\tfoo.txt"⟩

/-- Fixture: a conflicting quarantine branch. -/
def infoConflicting : BranchInfo :=
  ⟨BranchRel.conflicting, "c1", "1\t2\tfoo.txt", "M\tfoo.txt"⟩

/-- Fixture: a fast-forwardable quarantine branch adding one file. -/
def infoFastForward : BranchInfo :=
  ⟨BranchRel.fastForwardable, "c1", "3\t0\tbar.txt", "A\tbar.txt"⟩

/-- Fixture: a repository with no quarantine branches. -/
def repoEmpty : RepoState := ⟨[], false, []⟩

/-- Fixture: a repository holding one diverged job quarantine branch. -/
def repoDiverged : RepoState :=
  ⟨[("chucky/job-run_1", infoDiverged)], false, []⟩

/-- Fixture: a repository holding one conflicting job quarantine
branch. -/
def repoConflicting : RepoState :=
  ⟨[("chucky/job-run_1", infoConflicting)], false, []⟩

/-- Fixture: a repository holding one fast-forwardable session quarantine
branch. -/
def repoFastForward : RepoState :=
  ⟨[("chucky/session-aaaabbbb-cccc-dddd-eeee-ffff00001111", infoFastForward)],
   false, []⟩

/-- Fixture: a fetch environment whose changeset has changes and whose
download and verification succeed. -/
def envOk : FetchEnv := ⟨GRes.ok ⟨"https://r2/bundle", true⟩, true, true, infoDiverged⟩

/-- Fixture: a fetch environment whose changeset reports no changes. -/
def envNoChanges : FetchEnv :=
  ⟨GRes.ok ⟨"https://r2/bundle", false⟩, true, true, infoDiverged⟩

/-- Fixture: a rename entry as `git diff` reports it (`--numstat` gives
numeric fields, `--name-status` a status of the form `R<score>` with the
old and new path): the classification loop of `getBundleStats` recognises
only `A`/`M`/`D` and drops it. -/
def renameEntry : DiffEntry :=
  ⟨some 1, some 2, ['R', '1', '0', '0'], "old.txt\tnew.txt".data⟩

/-- Fixture: a branch whose diff against HEAD consists of the single
rename entry. -/
def repoRename : RepoState :=
  ⟨[("chucky/job-run_9",
     ⟨BranchRel.diverged, "c9", renderNumstat [renameEntry],
      renderNameStatus [renameEntry]⟩)], false, []⟩

/-- Fixture: a well-formed diff with an added text file, a modified
binary file and a deleted text file. -/
def entriesMixed : List DiffEntry :=
  [⟨some 3, some 1, ['A'], "a.txt".data⟩,
   ⟨none, none, ['M'], "img.png".data⟩,
   ⟨some 0, some 2, ['D'], "b.txt".data⟩]

/-- Fixture: a repository whose quarantine branch carries the rendered
outputs of `entriesMixed`. -/
def repoMixed : RepoState :=
  ⟨[("chucky/job-run_5",
     ⟨BranchRel.diverged, "c5", renderNumstat entriesMixed,
      renderNameStatus entriesMixed⟩)], false, []⟩

/-- Condition-tag → exit-code table collected from the `exitWithError`
call sites of the modelled commands. -/
def conditionCode (tag : String) : Option Nat :=
  if tag = "branch_exists" then some ExitCode.CONFLICT
  else if tag = "invalid_bundle" then some ExitCode.CONFLICT
  else if tag = "merge_conflict" then some ExitCode.CONFLICT
  else if tag = "branch_not_found" then some ExitCode.NOT_FOUND
  else if tag = "job_not_found" then some ExitCode.NOT_FOUND
  else if tag = "session_not_found" then some ExitCode.NOT_FOUND
  else if tag = "no_changes" then some ExitCode.NO_CHANGES
  else if tag = "download_failed" then some ExitCode.NETWORK_ERROR
  else if tag = "apply_failed" then some ExitCode.NETWORK_ERROR
  else if tag = "fetch_failed" then some ExitCode.NETWORK_ERROR
  else none

/-! ### Helper lemmas about the string models -/

theorem splitChar_ne_nil (c : Char) (l : List Char) : splitChar c l ≠ [] := by
  induction l with
  | nil => simp [splitChar]
  | cons x xs ih =>
    unfold splitChar
    cases h : splitChar c xs with
    | nil => exact absurd h ih
    | cons hd tl => by_cases hx : x = c <;> simp [hx]

theorem splitChar_nosep (c : Char) (l : List Char) (h : ∀ a ∈ l, a ≠ c) :
    splitChar c l = [l] := by
  induction l with
  | nil => rfl
  | cons x xs ih =>
    have hx : x ≠ c := h x (by simp)
    have hrec : splitChar c xs = [xs] := ih (fun a ha => h a (by simp [ha]))
    unfold splitChar
    rw [hrec]
    simp [hx]

theorem splitChar_cons (c x : Char) (xs : List Char) :
    splitChar c (x :: xs) =
      match splitChar c xs with
      | [] => [[]]
      | h :: t => if x = c then [] :: h :: t else (x :: h) :: t := rfl

theorem splitChar_append (c : Char) (x rest : List Char)
    (h : ∀ a ∈ x, a ≠ c) :
    splitChar c (x ++ c :: rest) = x :: splitChar c rest := by
  induction x with
  | nil =>
    simp only [List.nil_append]
    rw [splitChar_cons]
    cases hr : splitChar c rest with
    | nil => exact absurd hr (splitChar_ne_nil c rest)
    | cons hd tl => simp
  | cons a x ih =>
    have ha : a ≠ c := h a (by simp)
    have hrec := ih (fun b hb => h b (by simp [hb]))
    simp only [List.cons_append]
    rw [splitChar_cons, hrec]
    simp [ha]

theorem joinSep_split (c : Char) (xss : List (List Char)) (hne : xss ≠ [])
    (h : ∀ l ∈ xss, ∀ a ∈ l, a ≠ c) :
    splitChar c (joinSepChar c xss) = xss := by
  induction xss with
  | nil => exact absurd rfl hne
  | cons x xss ih =>
    cases xss with
    | nil =>
      simp only [joinSepChar]
      exact splitChar_nosep c x (h x (by simp))
    | cons y ys =>
      have hx : ∀ a ∈ x, a ≠ c := h x (by simp)
      have hrest : ∀ l ∈ y :: ys, ∀ a ∈ l, a ≠ c := by
        intro l hl a ha
        exact h l (by simp [hl]) a ha
      have hrec := ih (by simp) hrest
      simp only [joinSepChar]
      rw [splitChar_append c x _ hx, hrec]

theorem dropWhile_concat_ne_nil (l : List Char) (a : Char)
    (h : isWsChar a = false) : (l ++ [a]).dropWhile isWsChar ≠ [] := by
  induction l with
  | nil => simp [List.dropWhile, h]
  | cons b l ih =>
    simp only [List.cons_append, List.dropWhile]
    cases hb : isWsChar b with
    | true => simpa using ih
    | false => simp

theorem jsTrim_keep (a : Char) (l : List Char) (h : isWsChar a = false) :
    (jsTrim (a :: l)).isEmpty = false := by
  unfold jsTrim
  rw [List.dropWhile_cons]
  simp only [h, Bool.false_eq_true, if_false, List.reverse_cons]
  have hne := dropWhile_concat_ne_nil l.reverse a h
  cases hd : (l.reverse ++ [a]).dropWhile isWsChar with
  | nil => exact absurd hd hne
  | cons y ys => simp

theorem digitChar_toNat (d : Nat) (h : d < 10) :
    (Char.ofNat (48 + d)).toNat = 48 + d := by
  interval_cases d <;> decide

theorem digitChar_isDigit (d : Nat) (h : d < 10) :
    isDigitChar (Char.ofNat (48 + d)) = true := by
  simp [isDigitChar, digitChar_toNat d h]
  omega

theorem natDigitsFuel_allDigits (fuel n : Nat) :
    allDigits (natDigitsFuel fuel n) = true := by
  induction fuel generalizing n with
  | zero => rfl
  | succ fuel ih =>
    unfold natDigitsFuel
    by_cases h : n < 10
    · simp [h, allDigits, digitChar_isDigit n h]
    · have hm : n % 10 < 10 := Nat.mod_lt n (by omega)
      simp only [h, if_false, allDigits, List.all_append, List.all_cons,
        List.all_nil]
      have h1 := ih (n / 10)
      simp [allDigits] at h1
      simp [digitChar_isDigit (n % 10) hm]
      exact h1

theorem natDigitsFuel_ne_nil (fuel n : Nat) (h : 0 < fuel) :
    natDigitsFuel fuel n ≠ [] := by
  cases fuel with
  | zero => omega
  | succ fuel =>
    unfold natDigitsFuel
    by_cases h10 : n < 10 <;> simp [h10]

theorem jsParseIntCore_append (xs ys : List Char) (acc : Nat)
    (h : allDigits xs = true) :
    jsParseIntCore (xs ++ ys) acc = jsParseIntCore ys (jsParseIntCore xs acc) := by
  induction xs generalizing acc with
  | nil => rfl
  | cons c cs ih =>
    simp only [allDigits, List.all_cons, Bool.and_eq_true] at h
    simp only [List.cons_append, jsParseIntCore, h.1, if_true]
    exact ih _ (by simp [allDigits, h.2])

theorem natDigitsFuel_parse (fuel n acc : Nat) (h : n < fuel) :
    jsParseIntCore (natDigitsFuel fuel n) acc =
      acc * 10 ^ (natDigitsFuel fuel n).length + n := by
  induction fuel generalizing n acc with
  | zero => omega
  | succ fuel ih =>
    unfold natDigitsFuel
    by_cases h10 : n < 10
    · simp only [h10, if_true, jsParseIntCore, digitChar_isDigit n h10,
        digitChar_toNat n h10]
      simp [pow_succ]
    · have hm : n % 10 < 10 := Nat.mod_lt n (by omega)
      have hdiv : n / 10 < n := Nat.div_lt_self (by omega) (by omega)
      have hlt : n / 10 < fuel := by omega
      simp only [h10, if_false]
      rw [jsParseIntCore_append _ _ _ (natDigitsFuel_allDigits fuel (n / 10)),
        ih (n / 10) acc hlt]
      simp only [jsParseIntCore, digitChar_isDigit (n % 10) hm, if_true,
        digitChar_toNat (n % 10) hm, List.length_append, List.length_cons,
        List.length_nil]
      have h1 : (acc * 10 ^ (natDigitsFuel fuel (n / 10)).length + n / 10) * 10 +
          (48 + n % 10 - 48) =
          acc * (10 ^ (natDigitsFuel fuel (n / 10)).length * 10) +
            (n / 10 * 10 + n % 10) := by ring_nf; omega
      rw [h1]
      have h2 : n / 10 * 10 + n % 10 = n := by omega
      rw [h2, ← pow_succ]

theorem jsParseIntL_natDigits (n : Nat) : jsParseIntL (natDigits n) = n := by
  have := natDigitsFuel_parse (n + 1) n 0 (Nat.lt_succ_self n)
  simpa [jsParseIntL, natDigits] using this

theorem natDigits_allDigits (n : Nat) : allDigits (natDigits n) = true :=
  natDigitsFuel_allDigits (n + 1) n

theorem natDigits_ne_nil (n : Nat) : natDigits n ≠ [] :=
  natDigitsFuel_ne_nil (n + 1) n (Nat.succ_pos n)

theorem natDigits_ne_dash (n : Nat) : natDigits n ≠ ['-'] := by
  intro h
  have hall := natDigits_allDigits n
  rw [h] at hall
  simp [allDigits, isDigitChar] at hall

theorem digitChar_facts (c : Char) (h : isDigitChar c = true) :
    isWsChar c = false ∧ c ≠ '\t' ∧ c ≠ '\n' ∧ c ≠ '-' := by
  simp only [isDigitChar, Bool.and_eq_true, decide_eq_true_eq] at h
  refine ⟨?_, ?_, ?_, ?_⟩
  · simp only [isWsChar, Bool.or_eq_false_iff, decide_eq_false_iff_not]
    omega
  · intro heq
    subst heq
    exact absurd h (by decide)
  · intro heq
    subst heq
    exact absurd h (by decide)
  · intro heq
    subst heq
    exact absurd h (by decide)

theorem numField_chars (v : Option Nat) :
    ∀ a ∈ numField v, isWsChar a = false ∧ a ≠ '\t' ∧ a ≠ '\n' := by
  intro a ha
  cases v with
  | none =>
    simp only [numField, List.mem_singleton] at ha
    subst ha
    exact ⟨by decide, by decide, by decide⟩
  | some n =>
    simp only [numField] at ha
    have hall := natDigits_allDigits n
    simp only [allDigits, List.all_eq_true] at hall
    have := digitChar_facts a (hall a ha)
    exact ⟨this.1, this.2.1, this.2.2.1⟩

theorem numstatLine_no_nl (e : DiffEntry) (hp : '\n' ∉ e.path) :
    ∀ a ∈ numstatLineOf e, a ≠ '\n' := by
  intro a ha
  simp only [numstatLineOf, List.mem_append, List.mem_cons] at ha
  rcases ha with hf | hd | hf | hd | hpath
  · exact (numField_chars e.ins a hf).2.2
  · subst hd; decide
  · exact (numField_chars e.del a hf).2.2
  · subst hd; decide
  · intro heq; subst heq; exact hp hpath

theorem nameStatusLine_no_nl (e : DiffEntry) (hp : '\n' ∉ e.path)
    (hs : '\n' ∉ e.status) : ∀ a ∈ nameStatusLineOf e, a ≠ '\n' := by
  intro a ha
  simp only [nameStatusLineOf, List.mem_append, List.mem_cons] at ha
  rcases ha with hstat | hd | hpath
  · intro heq; subst heq; exact hs hstat
  · subst hd; decide
  · intro heq; subst heq; exact hp hpath

theorem numstatLine_kept (e : DiffEntry) :
    (!(jsTrim (numstatLineOf e)).isEmpty) = true := by
  cases hv : e.ins with
  | none =>
    have hline : numstatLineOf e =
        '-' :: '\t' :: (numField e.del ++ '\t' :: e.path) := by
      simp [numstatLineOf, hv, numField]
    rw [hline, Bool.not_eq_true']
    exact jsTrim_keep _ _ (by decide)
  | some n =>
    cases hd : natDigits n with
    | nil => exact absurd hd (natDigits_ne_nil n)
    | cons c cs =>
      have hcmem : c ∈ natDigits n := by rw [hd]; simp
      have hall := natDigits_allDigits n
      simp only [allDigits, List.all_eq_true] at hall
      have hcw : isWsChar c = false := (digitChar_facts c (hall c hcmem)).1
      have hline : numstatLineOf e =
          c :: (cs ++ '\t' :: (numField e.del ++ '\t' :: e.path)) := by
        simp [numstatLineOf, hv, numField, hd]
      rw [hline, Bool.not_eq_true']
      exact jsTrim_keep _ _ hcw

theorem nameStatusLine_kept (e : DiffEntry)
    (h : (hasHead 'A' e.status || hasHead 'M' e.status ||
      hasHead 'D' e.status) = true) :
    (!(jsTrim (nameStatusLineOf e)).isEmpty) = true := by
  cases hst : e.status with
  | nil => rw [hst] at h; simp [hasHead] at h
  | cons x t =>
    rw [hst] at h
    simp only [hasHead, Bool.or_eq_true, decide_eq_true_eq] at h
    have hxw : isWsChar x = false := by
      rcases h with (h | h) | h <;> subst h <;> decide
    have hline : nameStatusLineOf e = x :: (t ++ '\t' :: e.path) := by
      simp [nameStatusLineOf, hst]
    rw [hline, Bool.not_eq_true']
    exact jsTrim_keep _ _ hxw

theorem numstatStep_line (a b : Nat) (e : DiffEntry) :
    numstatStep (a, b) (numstatLineOf e) =
      (a + e.ins.getD 0, b + e.del.getD 0) := by
  have hins : ∀ x ∈ numField e.ins, x ≠ '\t' :=
    fun x hx => (numField_chars e.ins x hx).2.1
  have hdel : ∀ x ∈ numField e.del, x ≠ '\t' :=
    fun x hx => (numField_chars e.del x hx).2.1
  have hfields : splitChar '\t' (numstatLineOf e) =
      numField e.ins :: numField e.del :: splitChar '\t' e.path := by
    unfold numstatLineOf
    rw [splitChar_append '\t' _ _ hins, splitChar_append '\t' _ _ hdel]
  unfold numstatStep
  rw [hfields]
  cases hv : e.ins with
  | none =>
    cases hw : e.del with
    | none => simp [numField]
    | some m =>
      simp [numField, if_neg (natDigits_ne_dash m), jsParseIntL_natDigits]
  | some n =>
    cases hw : e.del with
    | none =>
      simp [numField, if_neg (natDigits_ne_dash n), jsParseIntL_natDigits]
    | some m =>
      simp [numField, if_neg (natDigits_ne_dash n),
        if_neg (natDigits_ne_dash m), jsParseIntL_natDigits]

theorem numstat_fold (entries : List DiffEntry) (a b : Nat) :
    List.foldl numstatStep (a, b) (entries.map numstatLineOf) =
      (a + sumIns entries, b + sumDel entries) := by
  induction entries generalizing a b with
  | nil => simp [sumIns, sumDel]
  | cons e es ih =>
    simp only [List.map_cons, List.foldl_cons, numstatStep_line a b e]
    rw [ih]
    simp only [sumIns, sumDel, List.map_cons, List.sum_cons, Prod.mk.injEq]
    omega

theorem nameStatusStep_line
    (acc : List String × List String × List String) (e : DiffEntry)
    (hs : '\t' ∉ e.status)
    (h : (hasHead 'A' e.status || hasHead 'M' e.status ||
      hasHead 'D' e.status) = true) :
    nsTotal (nameStatusStep acc (nameStatusLineOf e)) = nsTotal acc + 1 := by
  have hsf : ∀ x ∈ e.status, x ≠ '\t' :=
    fun x hx heq => hs (heq ▸ hx)
  have hfields : splitChar '\t' (nameStatusLineOf e) =
      e.status :: splitChar '\t' e.path := by
    unfold nameStatusLineOf
    rw [splitChar_append '\t' _ _ hsf]
  unfold nameStatusStep
  rw [hfields]
  simp only [List.headD_cons, List.tail_cons]
  cases hst : e.status with
  | nil => rw [hst] at h; simp [hasHead] at h
  | cons x t =>
    rw [hst] at h
    simp only [hasHead, Bool.or_eq_true, decide_eq_true_eq] at h
    rcases h with (h | h) | h <;> subst h <;>
      simp [hasHead, nsTotal] <;> omega

theorem nameStatus_fold (entries : List DiffEntry)
    (acc : List String × List String × List String)
    (hwf : entriesWf entries = true) (hamd : entriesAMD entries = true) :
    nsTotal (List.foldl nameStatusStep acc (entries.map nameStatusLineOf)) =
      nsTotal acc + entries.length := by
  induction entries generalizing acc with
  | nil => simp
  | cons e es ih =>
    simp only [entriesWf, List.all_cons, Bool.and_eq_true] at hwf
    simp only [entriesAMD, List.all_cons, Bool.and_eq_true] at hamd
    have hstab : '\t' ∉ e.status := by
      have := hwf.1
      simp only [entryWf, Bool.and_eq_true, decide_eq_true_eq] at this
      exact this.1.2
    simp only [List.map_cons, List.foldl_cons]
    rw [ih _ (by simp [entriesWf, hwf.2]) (by simp [entriesAMD, hamd.2]),
      nameStatusStep_line acc e hstab hamd.1]
    simp only [List.length_cons]
    omega

theorem nonEmptyLines_renderNumstat (entries : List DiffEntry)
    (hp : ∀ e ∈ entries, '\n' ∉ e.path) :
    nonEmptyLinesOf (renderNumstat entries) = entries.map numstatLineOf := by
  cases entries with
  | nil => rfl
  | cons e es =>
    have hdata : (renderNumstat (e :: es)).data =
        joinSepChar '\n' ((e :: es).map numstatLineOf) := rfl
    unfold nonEmptyLinesOf
    rw [hdata, joinSep_split '\n' _ (by simp) ?hno]
    case hno =>
      intro l hl a ha
      simp only [List.mem_map] at hl
      obtain ⟨e', he', rfl⟩ := hl
      exact numstatLine_no_nl e' (hp e' he') a ha
    refine List.filter_eq_self.mpr ?_
    intro l hl
    simp only [List.mem_map] at hl
    obtain ⟨e', _, rfl⟩ := hl
    exact numstatLine_kept e'

theorem nonEmptyLines_renderNameStatus (entries : List DiffEntry)
    (hwf : entriesWf entries = true) (hamd : entriesAMD entries = true) :
    nonEmptyLinesOf (renderNameStatus entries) =
      entries.map nameStatusLineOf := by
  cases entries with
  | nil => rfl
  | cons e es =>
    have hdata : (renderNameStatus (e :: es)).data =
        joinSepChar '\n' ((e :: es).map nameStatusLineOf) := rfl
    unfold nonEmptyLinesOf
    rw [hdata, joinSep_split '\n' _ (by simp) ?hno]
    case hno =>
      intro l hl a ha
      simp only [List.mem_map] at hl
      obtain ⟨e', he', rfl⟩ := hl
      have hwf' : entryWf e' = true := by
        simp only [entriesWf, List.all_eq_true] at hwf
        exact hwf e' he'
      simp only [entryWf, Bool.and_eq_true, decide_eq_true_eq] at hwf'
      exact nameStatusLine_no_nl e' hwf'.1.1.1 hwf'.1.1.2 a ha
    refine List.filter_eq_self.mpr ?_
    intro l hl
    simp only [List.mem_map] at hl
    obtain ⟨e', he', rfl⟩ := hl
    have hamd' : (hasHead 'A' e'.status || hasHead 'M' e'.status ||
        hasHead 'D' e'.status) = true := by
      simp only [entriesAMD, List.all_eq_true] at hamd
      exact hamd e' he'
    exact nameStatusLine_kept e' hamd'

/-! ### Claim C6 -/

/-- C6 (amended): for a quarantine branch whose diff against HEAD consists
of well-formed entries all carrying an added/modified/deleted status
(binary files included: they are `A`/`M`/`D` entries whose numstat fields
are the non-numeric marker), the summary's insertions and deletions each
equal the sum of the per-file numeric contributions (binary files
contributing 0), and the three classification lists together hold exactly
one file per changed path reported by the name-status diff.  Paths with
other statuses (renames `R`, copies `C`, type changes `T`) are dropped by
the classification loop, which is the amendment forced by
`bundle_stats_rename_cex`. -/
theorem bundle_stats_spec (st : RepoState) (b : String) (info : BranchInfo)
    (entries : List DiffEntry)
    (h1 : findBranch st.branches b = some info)
    (h2 : info.numstatOut = renderNumstat entries)
    (h3 : info.nameStatusOut = renderNameStatus entries)
    (h4 : entriesWf entries = true) (h5 : entriesAMD entries = true) :
    (getBundleStats st b).insertions = sumIns entries ∧
    (getBundleStats st b).deletions = sumDel entries ∧
    classifiedCount (getBundleStats st b) = entries.length ∧
    (nonEmptyLinesOf info.nameStatusOut).length = entries.length := by
  have hp : ∀ e ∈ entries, '\n' ∉ e.path := by
    intro e he
    simp only [entriesWf, List.all_eq_true] at h4
    have := h4 e he
    simp only [entryWf, Bool.and_eq_true, decide_eq_true_eq] at this
    exact this.1.1.1
  have hnum : nonEmptyLinesOf info.numstatOut = entries.map numstatLineOf := by
    rw [h2]; exact nonEmptyLines_renderNumstat entries hp
  have hns : nonEmptyLinesOf info.nameStatusOut =
      entries.map nameStatusLineOf := by
    rw [h3]; exact nonEmptyLines_renderNameStatus entries h4 h5
  have hcounts : numstatCounts (nonEmptyLinesOf info.numstatOut) =
      (sumIns entries, sumDel entries) := by
    rw [hnum]
    unfold numstatCounts
    rw [numstat_fold entries 0 0]
    simp
  have hfiles : nsTotal (nameStatusLists (nonEmptyLinesOf info.nameStatusOut)) =
      entries.length := by
    rw [hns]
    unfold nameStatusLists
    rw [nameStatus_fold entries ([], [], []) h4 h5]
    simp [nsTotal]
  refine ⟨?_, ?_, ?_, ?_⟩
  · simp only [getBundleStats, h1, Option.getD_some, hcounts]
  · simp only [getBundleStats, h1, Option.getD_some, hcounts]
  · simp only [classifiedCount, getBundleStats, h1, Option.getD_some]
    simpa [nsTotal] using hfiles
  · rw [hns, List.length_map]

/-- C6 witness: the amended statement evaluated on a concrete branch whose
diff adds a text file, modifies a binary file and deletes a text file. -/
theorem bundle_stats_spec_witness :
    (getBundleStats repoMixed "chucky/job-run_5").insertions =
      sumIns entriesMixed ∧
    (getBundleStats repoMixed "chucky/job-run_5").deletions =
      sumDel entriesMixed ∧
    classifiedCount (getBundleStats repoMixed "chucky/job-run_5") =
      entriesMixed.length ∧
    (nonEmptyLinesOf (renderNameStatus entriesMixed)).length =
      entriesMixed.length :=
  bundle_stats_spec repoMixed "chucky/job-run_5"
    ⟨BranchRel.diverged, "c5", renderNumstat entriesMixed,
      renderNameStatus entriesMixed⟩
    entriesMixed (by decide) rfl rfl (by decide) (by decide)

/-- C6 counterexample: a branch whose diff against HEAD is a single rename
(`R100` status, as `git diff --name-status` reports with rename detection
on) yields empty classification lists although the underlying diff reports
one changed path, refuting the claimed equality `filesAdded.length +
filesModified.length + filesDeleted.length = number of changed paths`;
the insertion/deletion sums still match the numeric fields. -/
theorem bundle_stats_rename_cex :
    classifiedCount (getBundleStats repoRename "chucky/job-run_9") = 0 ∧
    (nonEmptyLinesOf (renderNameStatus [renameEntry])).length = 1 ∧
    classifiedCount (getBundleStats repoRename "chucky/job-run_9") ≠
      (nonEmptyLinesOf (renderNameStatus [renameEntry])).length ∧
    (getBundleStats repoRename "chucky/job-run_9").insertions = 1 ∧
    (getBundleStats repoRename "chucky/job-run_9").deletions = 2 := by
  decide

/-! ### Helper lemmas about the repository model -/

theorem findBranch_erase (l : List (String × BranchInfo)) (b : String) :
    findBranch (eraseBranch l b) b = none := by
  induction l with
  | nil => rfl
  | cons p rest ih =>
    obtain ⟨n, i⟩ := p
    unfold eraseBranch
    by_cases h : n = b
    · simp [h, ih]
    · simp [findBranch, h, ih]

theorem findBranch_absorb (l : List (String × BranchInfo)) (b : String) :
    findBranch (absorbBranches l b) b =
      (findBranch l b).map (fun i =>
        { i with rel := BranchRel.fastForwardable, revListOut := "",
                 numstatOut := "", nameStatusOut := "" }) := by
  induction l with
  | nil => rfl
  | cons p rest ih =>
    obtain ⟨n, i⟩ := p
    unfold absorbBranches
    by_cases h : n = b
    · subst h
      rw [if_pos rfl]
      simp [findBranch]
    · rw [if_neg h]
      unfold findBranch
      rw [if_neg h, if_neg h, ih]

/-! ### Claim C4 -/

/-- C4: discard never raises: deleting an absent quarantine branch is a
no-op (`gitSafe` plus forced `-D` in `discardBranch`), a present branch is
removed, and re-running discard afterwards changes nothing, so discard is
idempotent; `discardCommand` reports success in every case. -/
theorem discard_idempotent (st : RepoState) (b : String) (info : BranchInfo)
    (h : branchExists st b = false) :
    discardBranch st b = st ∧
    (discardCommand st b).2.2 = DiscardOut.discarded ∧
    (discardCommand (addBranch st b info) b).2.2 = DiscardOut.discarded ∧
    branchExists (discardBranch (addBranch st b info) b) b = false ∧
    discardBranch (discardBranch (addBranch st b info) b) b =
      discardBranch (addBranch st b info) b := by
  have hnone : findBranch st.branches b = none := by
    cases hf : findBranch st.branches b with
    | none => rfl
    | some v =>
      unfold branchExists at h
      rw [hf] at h
      simp at h
  have hself : discardBranch st b = st := by
    unfold discardBranch gitBranchDeleteForce
    rw [hnone]
  have hadd : findBranch (addBranch st b info).branches b = some info := by
    simp [addBranch, findBranch]
  have hdel : discardBranch (addBranch st b info) b =
      { addBranch st b info with
        branches := eraseBranch (addBranch st b info).branches b } := by
    unfold discardBranch gitBranchDeleteForce
    rw [hadd]
  have hgone : findBranch (eraseBranch (addBranch st b info).branches b) b =
      none := findBranch_erase _ b
  refine ⟨hself, rfl, rfl, ?_, ?_⟩
  · rw [hdel]
    simp [branchExists, hgone]
  · rw [hdel]
    unfold discardBranch gitBranchDeleteForce
    simp [hgone]

/-- C4 witness: the theorem evaluated at a repository without the branch
and the same repository with the branch added. -/
theorem discard_idempotent_witness :
    discardBranch repoEmpty "chucky/job-run_1" = repoEmpty ∧
    (discardCommand repoEmpty "chucky/job-run_1").2.2 = DiscardOut.discarded ∧
    (discardCommand (addBranch repoEmpty "chucky/job-run_1" infoDiverged)
      "chucky/job-run_1").2.2 = DiscardOut.discarded ∧
    branchExists (discardBranch
      (addBranch repoEmpty "chucky/job-run_1" infoDiverged)
      "chucky/job-run_1") "chucky/job-run_1" = false ∧
    discardBranch (discardBranch
      (addBranch repoEmpty "chucky/job-run_1" infoDiverged)
      "chucky/job-run_1") "chucky/job-run_1" =
      discardBranch (addBranch repoEmpty "chucky/job-run_1" infoDiverged)
        "chucky/job-run_1" :=
  discard_idempotent repoEmpty "chucky/job-run_1" infoDiverged (by decide)

/-! ### Claim C2 -/

/-- C2: fetching a changeset whose quarantine branch already exists fails
with the `branch_exists` condition (exit code `CONFLICT`) while performing
no external action at all — nothing is downloaded, no API call is made,
and the repository state is returned unchanged, so no partial branch is
created and the at-most-one-quarantine-branch invariant is preserved. -/
theorem fetch_rejects_existing_branch (st : RepoState) (env : FetchEnv)
    (b : String) (isSession : Bool) (h : branchExists st b = true) :
    fetchCommand st env b isSession =
      (st, [], FetchOut.exited ExitCode.CONFLICT "branch_exists") := by
  simp [fetchCommand, h]

/-- C2 witness: the second fetch of an already-fetched changeset. -/
theorem fetch_rejects_existing_branch_witness :
    fetchCommand repoDiverged envOk "chucky/job-run_1" false =
      (repoDiverged, [], FetchOut.exited ExitCode.CONFLICT "branch_exists") :=
  fetch_rejects_existing_branch repoDiverged envOk "chucky/job-run_1" false
    (by decide)

/-! ### Claim C7 -/

/-- C7: when the remote reports a changeset with no file changes, fetch
terminates with the `no_changes` condition (its own exit code) right after
the bundle-location API call — before any download, verification or
branch creation, leaving the repository untouched — and the pull
composition ends there without ever invoking apply. -/
theorem fetch_no_changes_short_circuit (st : RepoState) (env : FetchEnv)
    (b : String) (isSession force : Bool) (info : BundleInfo)
    (h1 : branchExists st b = false) (h2 : env.bundleInfo = GRes.ok info)
    (h3 : info.hasChanges = false) :
    fetchCommand st env b isSession =
      (st, [GitAct.apiGetBundle],
        FetchOut.exited ExitCode.NO_CHANGES "no_changes") ∧
    pullCommand st env b isSession force =
      (st, [GitAct.apiGetBundle],
        PullOut.exited ExitCode.NO_CHANGES "no_changes") := by
  have hf : fetchCommand st env b isSession =
      (st, [GitAct.apiGetBundle],
        FetchOut.exited ExitCode.NO_CHANGES "no_changes") := by
    simp [fetchCommand, h1, h2, h3]
  refine ⟨hf, ?_⟩
  unfold pullCommand
  rw [hf]

/-- C7 witness: a no-changes changeset against an empty repository. -/
theorem fetch_no_changes_short_circuit_witness :
    fetchCommand repoEmpty envNoChanges "chucky/job-run_1" false =
      (repoEmpty, [GitAct.apiGetBundle],
        FetchOut.exited ExitCode.NO_CHANGES "no_changes") ∧
    pullCommand repoEmpty envNoChanges "chucky/job-run_1" false false =
      (repoEmpty, [GitAct.apiGetBundle],
        PullOut.exited ExitCode.NO_CHANGES "no_changes") :=
  fetch_no_changes_short_circuit repoEmpty envNoChanges "chucky/job-run_1"
    false false ⟨"https://r2/bundle", false⟩ (by decide) rfl rfl

/-! ### Helper lemmas about applyBranch and the error classification -/

theorem ffMsg_includes :
    (jsIncludes "fatal: Not possible to fast-forward, aborting."
        "fast-forward" ||
      jsIncludes "fatal: Not possible to fast-forward, aborting."
        "diverging") = true := by decide

theorem applyErrMap_conflictMsg :
    applyErrMap "CONFLICT (content): Merge conflict" =
      ApplyOut.exited ExitCode.CONFLICT "merge_conflict" := by decide

theorem applyBranch_ff_refused (st : RepoState) (b : String)
    (info : BranchInfo) (h1 : findBranch st.branches b = some info)
    (h2 : info.rel = BranchRel.diverged ∨ info.rel = BranchRel.conflicting) :
    applyBranch st b false =
      (st, [GitAct.mergeFFOnly b],
        GRes.err "fatal: Not possible to fast-forward, aborting.") := by
  rcases h2 with h2 | h2 <;>
    simp [applyBranch, gitMergeFF, h1, h2]

theorem applyBranch_force_conflicting (st : RepoState) (b : String)
    (info : BranchInfo) (h1 : findBranch st.branches b = some info)
    (h2 : info.rel = BranchRel.conflicting) :
    applyBranch st b true =
      ({ st with conflicted := true }, [GitAct.mergeNoEdit b],
        GRes.err "CONFLICT (content): Merge conflict") := by
  simp [applyBranch, gitMergeForce, h1, h2]

theorem applyBranch_force_diverged (st : RepoState) (b : String)
    (info : BranchInfo) (h1 : findBranch st.branches b = some info)
    (h2 : info.rel = BranchRel.diverged) :
    applyBranch st b true =
      ({ st with
          branches := eraseBranch (absorbBranches st.branches b) b,
          mergeMsgs := ("Merge " ++ b) :: st.mergeMsgs },
       [GitAct.mergeNoEdit b, GitAct.branchDeleteSoft b],
       GRes.ok ⟨(getBundleStats st b).commits,
         classifiedCount (getBundleStats st b)⟩) := by
  have habs : findBranch (absorbBranches st.branches b) b =
      some { info with
              rel := BranchRel.fastForwardable,
              revListOut := "",
              numstatOut := "",
              nameStatusOut := "" } := by
    rw [findBranch_absorb, h1]
    rfl
  simp only [applyBranch, gitMergeForce, h1, h2, if_true]
  simp only [gitBranchDeleteSoft, absorbBranch]
  rw [habs]
  simp [classifiedCount]

/-! ### Claim C1 -/

/-- C1: on a genuine content conflict the apply command exits with the
`merge_conflict` condition (exit code `CONFLICT`), the quarantine branch
is not deleted (the branch list is unchanged), and the repository is left
in the mid-merge conflicted state — no rollback or cleanup is performed.
This holds both without `force` (the fast-forward attempt is refused, the
automatic merge-commit retry hits the conflict) and with `force`. -/
theorem conflict_preserves_quarantine (st : RepoState) (b : String)
    (info : BranchInfo) (h1 : findBranch st.branches b = some info)
    (h2 : info.rel = BranchRel.conflicting) :
    applyCommand st b false =
      ({ st with conflicted := true },
       [GitAct.mergeFFOnly b, GitAct.mergeNoEdit b],
       ApplyOut.exited ExitCode.CONFLICT "merge_conflict") ∧
    applyCommand st b true =
      ({ st with conflicted := true },
       [GitAct.mergeNoEdit b],
       ApplyOut.exited ExitCode.CONFLICT "merge_conflict") ∧
    branchExists { st with conflicted := true } b = true ∧
    ({ st with conflicted := true } : RepoState).branches = st.branches := by
  have hbe : branchExists st b = true := by simp [branchExists, h1]
  have hff := applyBranch_ff_refused st b info h1 (Or.inr h2)
  have hforce := applyBranch_force_conflicting st b info h1 h2
  refine ⟨?_, ?_, ?_, rfl⟩
  · simp only [applyCommand, hbe, if_true, Bool.false_eq_true, if_false,
      hff, ffMsg_includes, hforce, applyErrMap_conflictMsg]
    rfl
  · simp only [applyCommand, hbe, if_true, hforce, applyErrMap_conflictMsg]
  · simp [branchExists, h1]

/-- C1 witness: the theorem evaluated on a repository holding one
conflicting quarantine branch. -/
theorem conflict_preserves_quarantine_witness :
    applyCommand repoConflicting "chucky/job-run_1" false =
      ({ repoConflicting with conflicted := true },
       [GitAct.mergeFFOnly "chucky/job-run_1",
        GitAct.mergeNoEdit "chucky/job-run_1"],
       ApplyOut.exited ExitCode.CONFLICT "merge_conflict") ∧
    applyCommand repoConflicting "chucky/job-run_1" true =
      ({ repoConflicting with conflicted := true },
       [GitAct.mergeNoEdit "chucky/job-run_1"],
       ApplyOut.exited ExitCode.CONFLICT "merge_conflict") ∧
    branchExists { repoConflicting with conflicted := true }
      "chucky/job-run_1" = true ∧
    ({ repoConflicting with conflicted := true } : RepoState).branches =
      repoConflicting.branches :=
  conflict_preserves_quarantine repoConflicting "chucky/job-run_1"
    infoConflicting (by decide) rfl

/-! ### Claim C3 -/

/-- C3: on a diverged quarantine branch, apply without `force` first
attempts the fast-forward-only merge, and on its "fast-forward" refusal
automatically retries with an explicit merge commit whose message is the
deterministic template `Merge <branchName>`; the fallback outcome is the
success payload (flagged `merge_commit`), not an error.  With `force` the
merge-commit path is the first attempt (no fast-forward attempt appears
in the action trace).  The quarantine branch is deleted afterwards. -/
theorem apply_divergence_fallback (st : RepoState) (b : String)
    (info : BranchInfo) (h1 : findBranch st.branches b = some info)
    (h2 : info.rel = BranchRel.diverged) :
    applyCommand st b false =
      ({ st with
          branches := eraseBranch (absorbBranches st.branches b) b,
          mergeMsgs := ("Merge " ++ b) :: st.mergeMsgs },
       [GitAct.mergeFFOnly b, GitAct.mergeNoEdit b,
        GitAct.branchDeleteSoft b],
       ApplyOut.applied (getBundleStats st b).commits
         (classifiedCount (getBundleStats st b))
         (getBundleStats st b).insertions (getBundleStats st b).deletions
         true) ∧
    applyCommand st b true =
      ({ st with
          branches := eraseBranch (absorbBranches st.branches b) b,
          mergeMsgs := ("Merge " ++ b) :: st.mergeMsgs },
       [GitAct.mergeNoEdit b, GitAct.branchDeleteSoft b],
       ApplyOut.applied (getBundleStats st b).commits
         (classifiedCount (getBundleStats st b))
         (getBundleStats st b).insertions (getBundleStats st b).deletions
         true) ∧
    branchExists
      { st with
          branches := eraseBranch (absorbBranches st.branches b) b,
          mergeMsgs := ("Merge " ++ b) :: st.mergeMsgs } b = false := by
  have hbe : branchExists st b = true := by simp [branchExists, h1]
  have hff := applyBranch_ff_refused st b info h1 (Or.inl h2)
  have hforce := applyBranch_force_diverged st b info h1 h2
  refine ⟨?_, ?_, ?_⟩
  · simp only [applyCommand, hbe, if_true, Bool.false_eq_true, if_false,
      hff, ffMsg_includes, hforce]
    rfl
  · simp only [applyCommand, hbe, if_true, hforce]
  · simp [branchExists, findBranch_erase]

/-- C3 witness: the theorem evaluated on a repository holding one
diverged quarantine branch. -/
theorem apply_divergence_fallback_witness :
    applyCommand repoDiverged "chucky/job-run_1" false =
      ({ repoDiverged with
          branches := eraseBranch
            (absorbBranches repoDiverged.branches "chucky/job-run_1")
            "chucky/job-run_1",
          mergeMsgs := ("Merge " ++ "chucky/job-run_1") ::
            repoDiverged.mergeMsgs },
       [GitAct.mergeFFOnly "chucky/job-run_1",
        GitAct.mergeNoEdit "chucky/job-run_1",
        GitAct.branchDeleteSoft "chucky/job-run_1"],
       ApplyOut.applied
         (getBundleStats repoDiverged "chucky/job-run_1").commits
         (classifiedCount (getBundleStats repoDiverged "chucky/job-run_1"))
         (getBundleStats repoDiverged "chucky/job-run_1").insertions
         (getBundleStats repoDiverged "chucky/job-run_1").deletions
         true) ∧
    applyCommand repoDiverged "chucky/job-run_1" true =
      ({ repoDiverged with
          branches := eraseBranch
            (absorbBranches repoDiverged.branches "chucky/job-run_1")
            "chucky/job-run_1",
          mergeMsgs := ("Merge " ++ "chucky/job-run_1") ::
            repoDiverged.mergeMsgs },
       [GitAct.mergeNoEdit "chucky/job-run_1",
        GitAct.branchDeleteSoft "chucky/job-run_1"],
       ApplyOut.applied
         (getBundleStats repoDiverged "chucky/job-run_1").commits
         (classifiedCount (getBundleStats repoDiverged "chucky/job-run_1"))
         (getBundleStats repoDiverged "chucky/job-run_1").insertions
         (getBundleStats repoDiverged "chucky/job-run_1").deletions
         true) ∧
    branchExists
      { repoDiverged with
          branches := eraseBranch
            (absorbBranches repoDiverged.branches "chucky/job-run_1")
            "chucky/job-run_1",
          mergeMsgs := ("Merge " ++ "chucky/job-run_1") ::
            repoDiverged.mergeMsgs } "chucky/job-run_1" = false :=
  apply_divergence_fallback repoDiverged "chucky/job-run_1" infoDiverged
    (by decide) rfl

/-! ### Claim C5 -/

theorem applyErrMap_ne_applied (m : String) (c f i d : Nat) (um : Bool) :
    applyErrMap m ≠ ApplyOut.applied c f i d um := by
  unfold applyErrMap
  split <;> simp

theorem applyBranch_ok_val (st : RepoState) (b : String) (force : Bool)
    (s : RepoState) (a : List GitAct) (r : ApplyRes)
    (h : applyBranch st b force = (s, a, GRes.ok r)) :
    r = ⟨(getBundleStats st b).commits,
      classifiedCount (getBundleStats st b)⟩ := by
  simp only [applyBranch] at h
  split at h
  · simp at h
  · split at h
    · simp at h
    · simp only [Prod.mk.injEq, GRes.ok.injEq] at h
      exact h.2.2.symm

theorem applyBranch_false_err (st : RepoState) (b : String) (s : RepoState)
    (a : List GitAct) (m : String)
    (h : applyBranch st b false = (s, a, GRes.err m)) : s = st := by
  cases hf : findBranch st.branches b with
  | none =>
    simp only [applyBranch, Bool.false_eq_true, if_false, gitMergeFF, hf,
      Prod.mk.injEq] at h
    exact h.1.symm
  | some info =>
    cases hrel : info.rel with
    | fastForwardable =>
      have habs : findBranch (absorbBranches st.branches b) b =
          some { info with
                  rel := BranchRel.fastForwardable,
                  revListOut := "",
                  numstatOut := "",
                  nameStatusOut := "" } := by
        rw [findBranch_absorb, hf]
        rfl
      simp only [applyBranch, Bool.false_eq_true, if_false, gitMergeFF, hf,
        hrel, absorbBranch, gitBranchDeleteSoft, habs] at h
      simp at h
    | diverged =>
      simp only [applyBranch, Bool.false_eq_true, if_false, gitMergeFF, hf,
        hrel, Prod.mk.injEq] at h
      exact h.1.symm
    | conflicting =>
      simp only [applyBranch, Bool.false_eq_true, if_false, gitMergeFF, hf,
        hrel, Prod.mk.injEq] at h
      exact h.1.symm

/-- C5: whenever apply succeeds, the reported commit count and file count
(and the insertion/deletion totals printed alongside) are exactly the
stats of the diff between HEAD and the quarantine branch taken on the
repository state before the merge — so the merge commit the forced-merge
path creates is never included in the reported counts. -/
theorem apply_counts_premerge (st : RepoState) (b : String) (force : Bool)
    (st' : RepoState) (acts : List GitAct) (c f i d : Nat) (um : Bool)
    (h : applyCommand st b force = (st', acts, ApplyOut.applied c f i d um)) :
    c = (getBundleStats st b).commits ∧
    f = classifiedCount (getBundleStats st b) ∧
    i = (getBundleStats st b).insertions ∧
    d = (getBundleStats st b).deletions := by
  by_cases hbe : branchExists st b
  · cases force with
    | true =>
      simp only [applyCommand, hbe, if_true] at h
      rcases hab : applyBranch st b true with ⟨s1, a1, r1⟩
      cases r1 with
      | ok r =>
        rw [hab] at h
        simp only [Prod.mk.injEq, ApplyOut.applied.injEq] at h
        have hr := applyBranch_ok_val st b true s1 a1 r hab
        obtain ⟨-, -, hc, hf2, hi, hd, -⟩ := h
        subst hr
        exact ⟨hc.symm, hf2.symm, hi.symm, hd.symm⟩
      | err m =>
        rw [hab] at h
        simp only [Prod.mk.injEq] at h
        exact absurd h.2.2 (applyErrMap_ne_applied m c f i d um)
    | false =>
      simp only [applyCommand, hbe, if_true, Bool.false_eq_true,
        if_false] at h
      rcases hab : applyBranch st b false with ⟨s1, a1, r1⟩
      cases r1 with
      | ok r =>
        rw [hab] at h
        simp only [Prod.mk.injEq, ApplyOut.applied.injEq] at h
        have hr := applyBranch_ok_val st b false s1 a1 r hab
        obtain ⟨-, -, hc, hf2, hi, hd, -⟩ := h
        subst hr
        exact ⟨hc.symm, hf2.symm, hi.symm, hd.symm⟩
      | err m =>
        rw [hab] at h
        have hs1 : s1 = st := applyBranch_false_err st b s1 a1 m hab
        by_cases hinc :
            (jsIncludes m "fast-forward" || jsIncludes m "diverging") = true
        · simp only [hinc, if_true] at h
          rcases hab2 : applyBranch s1 b true with ⟨s2, a2, r2⟩
          cases r2 with
          | ok r =>
            rw [hab2] at h
            simp only [Prod.mk.injEq, ApplyOut.applied.injEq] at h
            have hr := applyBranch_ok_val s1 b true s2 a2 r hab2
            rw [hs1] at hr
            obtain ⟨-, -, hc, hf2, hi, hd, -⟩ := h
            subst hr
            exact ⟨hc.symm, hf2.symm, hi.symm, hd.symm⟩
          | err m2 =>
            rw [hab2] at h
            simp only [Prod.mk.injEq] at h
            exact absurd h.2.2 (applyErrMap_ne_applied m2 c f i d um)
        · simp only [Bool.not_eq_true] at hinc
          simp only [hinc, Bool.false_eq_true, if_false,
            Prod.mk.injEq] at h
          exact absurd h.2.2 (applyErrMap_ne_applied m c f i d um)
  · simp only [Bool.not_eq_true] at hbe
    simp [applyCommand, hbe] at h

/-- C5 witness: a successful apply of a diverged branch reports the
pre-merge stats of the quarantine branch. -/
theorem apply_counts_premerge_witness :
    1 = (getBundleStats repoDiverged "chucky/job-run_1").commits ∧
    1 = classifiedCount (getBundleStats repoDiverged "chucky/job-run_1") ∧
    1 = (getBundleStats repoDiverged "chucky/job-run_1").insertions ∧
    2 = (getBundleStats repoDiverged "chucky/job-run_1").deletions :=
  apply_counts_premerge repoDiverged "chucky/job-run_1" false
    ⟨[], false, ["Merge chucky/job-run_1"]⟩
    [GitAct.mergeFFOnly "chucky/job-run_1",
     GitAct.mergeNoEdit "chucky/job-run_1",
     GitAct.branchDeleteSoft "chucky/job-run_1"]
    1 1 1 2 true (by decide)

/-! ### Claim C8 -/

/-- C8 counterexample: the branch deletion `applyBranch` performs after a
successful merge is `git(["branch", "-d", branchName])` — the non-forced
delete through the throwing wrapper (`gitBranchDeleteSoft`, visible as
`branchDeleteSoft` in the action trace) — and it raises an error both
when the branch is already gone and when the branch is unmerged, whereas
discard's deletion (`gitSafe(["branch", "-D", ...])`) silently no-ops on
a missing branch and force-deletes an unmerged one.  This refutes the
claim that the post-merge deletion is always forced and silently no-ops
like discard's. -/
theorem apply_cleanup_delete_cex :
    (applyBranch repoDiverged "chucky/job-run_1" true).2.1 =
      [GitAct.mergeNoEdit "chucky/job-run_1",
       GitAct.branchDeleteSoft "chucky/job-run_1"] ∧
    (gitBranchDeleteSoft repoEmpty "chucky/job-run_1").2 =
      GRes.err "error: branch chucky/job-run_1 not found." ∧
    discardBranch repoEmpty "chucky/job-run_1" = repoEmpty ∧
    (gitBranchDeleteSoft repoDiverged "chucky/job-run_1").2 =
      GRes.err "error: the branch chucky/job-run_1 is not fully merged." ∧
    (gitBranchDeleteForce repoDiverged "chucky/job-run_1").2 =
      GRes.ok "" := by
  decide

/-- C8 (amended): the post-merge cleanup in `applyBranch` is a non-forced
`branch -d` through the throwing wrapper: on a state where the branch is
absent it raises (unlike discard's forced, error-swallowing deletion,
which no-ops there); it never fires in that state inside `applyBranch`
because after a successful merge the branch is fully merged, so the
non-forced delete succeeds and the branch is gone. -/
theorem apply_cleanup_delete_spec (st st2 : RepoState) (b : String)
    (info : BranchInfo) (h1 : findBranch st.branches b = some info)
    (h2 : info.rel ≠ BranchRel.conflicting)
    (h3 : branchExists st2 b = false) :
    (gitBranchDeleteSoft st2 b).2 =
      GRes.err ("error: branch " ++ b ++ " not found.") ∧
    (gitBranchDeleteSoft st2 b).1 = st2 ∧
    discardBranch st2 b = st2 ∧
    (∃ r, (applyBranch st b true).2.2 = GRes.ok r) ∧
    branchExists (applyBranch st b true).1 b = false := by
  have hnone : findBranch st2.branches b = none := by
    cases hf : findBranch st2.branches b with
    | none => rfl
    | some v =>
      unfold branchExists at h3
      rw [hf] at h3
      simp at h3
  have habs : findBranch (absorbBranches st.branches b) b =
      some { info with
              rel := BranchRel.fastForwardable,
              revListOut := "",
              numstatOut := "",
              nameStatusOut := "" } := by
    rw [findBranch_absorb, h1]
    rfl
  refine ⟨?_, ?_, ?_, ?_, ?_⟩
  · simp [gitBranchDeleteSoft, hnone]
  · simp [gitBranchDeleteSoft, hnone]
  · simp [discardBranch, gitBranchDeleteForce, hnone]
  · cases hrel : info.rel with
    | fastForwardable =>
      simp [applyBranch, gitMergeForce, h1, hrel, absorbBranch,
        gitBranchDeleteSoft, habs]
    | diverged =>
      simp [applyBranch, gitMergeForce, h1, hrel, absorbBranch,
        gitBranchDeleteSoft, habs]
    | conflicting => exact absurd hrel h2
  · cases hrel : info.rel with
    | fastForwardable =>
      simp [applyBranch, gitMergeForce, h1, hrel, absorbBranch,
        gitBranchDeleteSoft, habs, branchExists, findBranch_erase]
    | diverged =>
      simp [applyBranch, gitMergeForce, h1, hrel, absorbBranch,
        gitBranchDeleteSoft, habs, branchExists, findBranch_erase]
    | conflicting => exact absurd hrel h2

/-- C8 witness: the amended statement evaluated on an empty repository
(branch gone) and a repository with a diverged quarantine branch. -/
theorem apply_cleanup_delete_spec_witness :
    (gitBranchDeleteSoft repoEmpty "chucky/job-run_1").2 =
      GRes.err ("error: branch " ++ "chucky/job-run_1" ++ " not found.") ∧
    (gitBranchDeleteSoft repoEmpty "chucky/job-run_1").1 = repoEmpty ∧
    discardBranch repoEmpty "chucky/job-run_1" = repoEmpty ∧
    (∃ r, (applyBranch repoDiverged "chucky/job-run_1" true).2.2 =
      GRes.ok r) ∧
    branchExists (applyBranch repoDiverged "chucky/job-run_1" true).1
      "chucky/job-run_1" = false :=
  apply_cleanup_delete_spec repoDiverged repoEmpty "chucky/job-run_1"
    infoDiverged (by decide) (by decide) (by decide)

/-! ### Claim C10 -/

/-- C10: session-ID resolution returns any input of length at least 36
unchanged, with no API call and no validation against existing sessions;
shorter inputs go through the prefix search, which sees only the first
100 sessions of the server-side list (the `limit: 100` request), so the
result never depends on sessions beyond the 100 most recent. -/
theorem resolve_session_id_spec (serverSessions : List SessionRec)
    (pid q : String) (h : 36 ≤ pid.length) :
    resolveSessionId serverSessions pid = ([], GRes.ok pid) ∧
    resolveSessionId serverSessions q =
      resolveSessionId (serverSessions.take 100) q := by
  constructor
  · simp [resolveSessionId, h]
  · unfold resolveSessionId
    by_cases hq : 36 ≤ q.length
    · simp [hq]
    · simp only [hq, if_false, List.take_take]
      rfl

/-- C10 witness: a 36-character input is returned as-is even against an
empty session list, and a short input resolves identically against the
full and the truncated session list. -/
theorem resolve_session_id_spec_witness :
    resolveSessionId [⟨"abcdef"⟩] "aaaabbbb-cccc-dddd-eeee-ffff00001111" =
      ([], GRes.ok "aaaabbbb-cccc-dddd-eeee-ffff00001111") ∧
    resolveSessionId [⟨"abcdef"⟩] "ab" =
      resolveSessionId (([⟨"abcdef"⟩] : List SessionRec).take 100) "ab" :=
  resolve_session_id_spec [⟨"abcdef"⟩]
    "aaaabbbb-cccc-dddd-eeee-ffff00001111" "ab" (by decide)

/-! ### Claim C9 -/

theorem applyErrMap_exit (m : String) (c : Nat) (t : String)
    (h : applyErrMap m = ApplyOut.exited c t) :
    conditionCode t = some c ∧ c ∈ allExitCodes := by
  unfold applyErrMap at h
  split at h <;>
    (simp only [ApplyOut.exited.injEq] at h
     obtain ⟨hc, ht⟩ := h
     subst hc
     subst ht
     decide)

theorem fetch_exit_code (st : RepoState) (env : FetchEnv) (b : String)
    (isSession : Bool) (c : Nat) (t : String)
    (h : (fetchCommand st env b isSession).2.2 = FetchOut.exited c t) :
    conditionCode t = some c ∧ c ∈ allExitCodes := by
  unfold fetchCommand at h
  split at h
  · simp only [FetchOut.exited.injEq] at h
    obtain ⟨hc, ht⟩ := h
    subst hc
    subst ht
    decide
  · split at h
    · simp only [FetchOut.exited.injEq] at h
      obtain ⟨hc, ht⟩ := h
      subst hc
      cases isSession with
      | true => subst ht; decide
      | false => subst ht; decide
    · split at h
      · simp only [FetchOut.exited.injEq] at h
        obtain ⟨hc, ht⟩ := h
        subst hc
        subst ht
        decide
      · split at h
        · simp only [FetchOut.exited.injEq] at h
          obtain ⟨hc, ht⟩ := h
          subst hc
          subst ht
          decide
        · split at h
          · simp only [FetchOut.exited.injEq] at h
            obtain ⟨hc, ht⟩ := h
            subst hc
            subst ht
            decide
          · simp at h

theorem apply_exit_code (st : RepoState) (b : String) (force : Bool)
    (c : Nat) (t : String)
    (h : (applyCommand st b force).2.2 = ApplyOut.exited c t) :
    conditionCode t = some c ∧ c ∈ allExitCodes := by
  by_cases hbe : branchExists st b
  · cases force with
    | true =>
      simp only [applyCommand, hbe, if_true] at h
      rcases hab : applyBranch st b true with ⟨s1, a1, r1⟩
      cases r1 with
      | ok r =>
        rw [hab] at h
        simp at h
      | err m =>
        rw [hab] at h
        exact applyErrMap_exit m c t h
    | false =>
      simp only [applyCommand, hbe, if_true, Bool.false_eq_true,
        if_false] at h
      rcases hab : applyBranch st b false with ⟨s1, a1, r1⟩
      cases r1 with
      | ok r =>
        rw [hab] at h
        simp at h
      | err m =>
        rw [hab] at h
        by_cases hinc :
            (jsIncludes m "fast-forward" || jsIncludes m "diverging") = true
        · simp only [hinc, if_true] at h
          rcases hab2 : applyBranch s1 b true with ⟨s2, a2, r2⟩
          cases r2 with
          | ok r =>
            rw [hab2] at h
            simp at h
          | err m2 =>
            rw [hab2] at h
            exact applyErrMap_exit m2 c t h
        · simp only [Bool.not_eq_true] at hinc
          simp only [hinc, Bool.false_eq_true, if_false] at h
          exact applyErrMap_exit m c t h
  · simp only [Bool.not_eq_true] at hbe
    simp only [applyCommand, hbe, Bool.false_eq_true, if_false,
      FetchOut.exited.injEq, ApplyOut.exited.injEq] at h
    obtain ⟨hc, ht⟩ := h
    subst hc
    subst ht
    decide

/-- C9 (amended): the exit codes of `output.ts` form the closed set
`{0..7}` (success, conflict, not-found, not-a-git-repo, network-error,
dirty-workspace, timeout, no-changes), and across the modelled commands
the mapping from condition tag to exit code is single-valued
(`conditionCode`); but an exit code may serve several condition tags —
the conflict code is shared by `branch_exists`, `invalid_bundle` and
`merge_conflict` (see `exit_code_conflict_cex`), so the direction "each
exit code corresponds to exactly one condition" fails. -/
theorem exit_code_mapping (st1 : RepoState) (env : FetchEnv) (b1 : String)
    (isSession : Bool) (st2 : RepoState) (b2 : String) (force : Bool)
    (c1 c2 : Nat) (t1 t2 : String)
    (h1 : (fetchCommand st1 env b1 isSession).2.2 = FetchOut.exited c1 t1)
    (h2 : (applyCommand st2 b2 force).2.2 = ApplyOut.exited c2 t2) :
    conditionCode t1 = some c1 ∧ c1 ∈ allExitCodes ∧
    conditionCode t2 = some c2 ∧ c2 ∈ allExitCodes ∧
    allExitCodes = [0, 1, 2, 3, 4, 5, 6, 7] := by
  have hf := fetch_exit_code st1 env b1 isSession c1 t1 h1
  have ha := apply_exit_code st2 b2 force c2 t2 h2
  exact ⟨hf.1, hf.2, ha.1, ha.2, by decide⟩

/-- C9 witness: a rejected fetch and a conflicted apply, both of whose
exit pairs are covered by the tag-to-code table. -/
theorem exit_code_mapping_witness :
    conditionCode "branch_exists" = some ExitCode.CONFLICT ∧
    ExitCode.CONFLICT ∈ allExitCodes ∧
    conditionCode "merge_conflict" = some ExitCode.CONFLICT ∧
    ExitCode.CONFLICT ∈ allExitCodes ∧
    allExitCodes = [0, 1, 2, 3, 4, 5, 6, 7] :=
  exit_code_mapping repoDiverged envOk "chucky/job-run_1" false
    repoConflicting "chucky/job-run_1" true
    ExitCode.CONFLICT ExitCode.CONFLICT "branch_exists" "merge_conflict"
    (by decide) (by decide)

/-- C9 counterexample: the conflict exit code is emitted with three
different condition tags — `branch_exists` (fetch on an existing branch),
`merge_conflict` (conflicted apply) and `invalid_bundle` (failed bundle
verification) — so the claim that each exit code corresponds to exactly
one of these condition tags is false. -/
theorem exit_code_conflict_cex :
    (fetchCommand repoDiverged envOk "chucky/job-run_1" false).2.2 =
      FetchOut.exited ExitCode.CONFLICT "branch_exists" ∧
    (applyCommand repoConflicting "chucky/job-run_1" true).2.2 =
      ApplyOut.exited ExitCode.CONFLICT "merge_conflict" ∧
    (fetchCommand repoEmpty
      ⟨GRes.ok ⟨"https://r2/bundle", true⟩, true, false, infoDiverged⟩
      "chucky/job-run_1" false).2.2 =
      FetchOut.exited ExitCode.CONFLICT "invalid_bundle" ∧
    ("branch_exists" ≠ "merge_conflict") ∧
    ("merge_conflict" ≠ "invalid_bundle") ∧
    ("branch_exists" ≠ "invalid_bundle") := by
  decide
